import Mathlib

/-!
Verification of the Hiring-Assistant interview orchestrator.

This file gives a shallow embedding, in Lean 4, of the conversation core
implemented in `chatbot.py` and `sentiment_analyzer.py`:

* text normalization and Jaccard similarity (`normalize_question`,
  `calculate_question_similarity`),
* the duplicate-question tracker (`is_question_duplicate`,
  `add_question_to_tracking`),
* experience bucketing and the fallback candidate profile
  (`get_experience_level`, the `except` branch of `analyze_candidate_profile`),
* the per-response sentiment guard (`SentimentAnalyzer.analyze_single_response`),
* the dialogue state machine (`process_input`, `handle_greeting`,
  `handle_info_collection`, `handle_technical_questions`).

Python strings are modelled as `List Char` (`Str`). Floats produced by the
similarity computation are modelled as rationals: every float arising here is
a ratio of two small naturals compared against 0.8, and all comparisons that
matter are at distance at least 0.009 from the threshold, far above any
double-rounding error. Calls to the Gemini text-generation service are
non-deterministic inputs of a turn; they are passed explicitly as parameters
(`TurnOracle`, oracle functions), so each embedded operation is a pure
function of the session state, the user input, and the oracle's answers.
Timestamps, prompt wording sent to the oracle, and message markdown are not
part of any verified property; outbound messages are therefore represented by
a constructor identifying which message the code built, carrying the data the
properties talk about. Scanning functions are written with structural
recursion (an accumulator or a character-count fuel) so that all definitions
evaluate inside the kernel; the fuel is always at least the length of the
scanned text, which every step shortens, and we prove the derived unfolding
equations that the abstract proofs need.
-/

/-- Text from the Python program, modelled as a list of characters. -/
abbrev Str := List Char

/-- Convenience conversion from a Lean string literal to the model's text type. -/
def str (s : String) : Str := s.data

/-- Whitespace recognised by Python's `str.strip` / `str.split` and the regex
class `\s` (ASCII part; the inputs under study contain no Unicode spaces). -/
def pySpace (c : Char) : Bool :=
  c == ' ' || c == '\t' || c == '\n' || c == '\r' || c == '\x0b' || c == '\x0c'

/-- Negation of `pySpace`, the predicate delimiting tokens. -/
def nonSpace (c : Char) : Bool := !pySpace c

/-- Lowercasing of one character, as Python's `str.lower` acts on ASCII
(identical to Lean's `Char.toLower`). -/
def pyLower (c : Char) : Char := Char.toLower c

/-- Accumulator loop behind `words`: `acc` holds the characters of the token
currently being read, in reverse order. -/
def wordsAux : Str → Str → List Str
  | [], acc => if acc.isEmpty then [] else [acc.reverse]
  | c :: rest, acc =>
    if pySpace c then
      if acc.isEmpty then wordsAux rest [] else acc.reverse :: wordsAux rest []
    else wordsAux rest (c :: acc)

/-- Python `s.split()` with no argument: the maximal whitespace-free runs of
`s`, in order; leading, trailing and repeated whitespace produce no tokens. -/
def words (s : Str) : List Str := wordsAux s []

/-- Python `' '.join(ws)`: tokens joined by single spaces. -/
def unwords : List Str → Str
  | [] => []
  | [w] => w
  | w :: ws => w ++ ' ' :: unwords ws

/-- Loop behind `collapseWs`; the flag records whether the scanner is inside a
whitespace run whose single replacement space has already been emitted. -/
def collapseAux : Bool → Str → Str
  | _, [] => []
  | inRun, c :: rest =>
    if pySpace c then
      if inRun then collapseAux true rest else ' ' :: collapseAux true rest
    else c :: collapseAux false rest

/-- Replacement of every maximal whitespace run by one space, the effect of
`re.sub(r'\s+', ' ', s)`. -/
def collapseWs (s : Str) : Str := collapseAux false s

/-- Python `s.strip()`: drop whitespace from both ends. -/
def pyStrip (s : Str) : Str :=
  ((s.dropWhile pySpace).reverse.dropWhile pySpace).reverse

/-- Characters removed from the end of a question by `re.sub(r'[.!?]+$', '', s)`. -/
def isTrailPunct (c : Char) : Bool := c == '.' || c == '!' || c == '?'

/-- Effect of `re.sub(r'[.!?]+$', '', s)`: strip the maximal trailing run of
`.`, `!`, `?`. -/
def stripTrailingPunct (s : Str) : Str :=
  (s.reverse.dropWhile isTrailPunct).reverse

/-- Attempted match of the regex `\[q-\d+\]` at the head of `s`; on success
returns the text after the match. The digit run is maximal, which coincides
with the regex's backtracking semantics because a failed greedy match can
only hand back digit characters, never the required `]`. -/
def tryQBr : Str → Option Str
  | c1 :: c2 :: c3 :: rest =>
    if c1 = '[' ∧ c2 = 'q' ∧ c3 = '-' then
      let ds := rest.takeWhile Char.isDigit
      if ds.isEmpty then none
      else
        match rest.drop ds.length with
        | ']' :: rem => some rem
        | _ => none
    else none
  | _ => none

/-- Fuel-indexed scanner for `re.sub(r'\[q-\d+\]', '', s)`; one unit of fuel
per consumed character suffices because every step consumes at least one. -/
def removeQBrF : Nat → Str → Str
  | 0, s => s
  | _ + 1, [] => []
  | fuel + 1, c :: rest =>
    match tryQBr (c :: rest) with
    | some rem => removeQBrF fuel rem
    | none => c :: removeQBrF fuel rest

/-- Effect of `re.sub(r'\[q-\d+\]', '', s)`: delete every (leftmost,
non-overlapping) occurrence of a bracketed question marker. -/
def removeQBr (s : Str) : Str := removeQBrF s.length s

/-- Attempted match of the regex `question \d+:` at the head of `s`; on
success returns the text after the match. -/
def tryQNum : Str → Option Str
  | c1 :: c2 :: c3 :: c4 :: c5 :: c6 :: c7 :: c8 :: c9 :: rest =>
    if c1 = 'q' ∧ c2 = 'u' ∧ c3 = 'e' ∧ c4 = 's' ∧ c5 = 't' ∧ c6 = 'i' ∧
        c7 = 'o' ∧ c8 = 'n' ∧ c9 = ' ' then
      let ds := rest.takeWhile Char.isDigit
      if ds.isEmpty then none
      else
        match rest.drop ds.length with
        | ':' :: rem => some rem
        | _ => none
    else none
  | _ => none

/-- Fuel-indexed scanner for `re.sub(r'question \d+:', '', s)`. -/
def removeQNumF : Nat → Str → Str
  | 0, s => s
  | _ + 1, [] => []
  | fuel + 1, c :: rest =>
    match tryQNum (c :: rest) with
    | some rem => removeQNumF fuel rem
    | none => c :: removeQNumF fuel rest

/-- Effect of `re.sub(r'question \d+:', '', s)`: delete every question-number
artifact. -/
def removeQNum (s : Str) : Str := removeQNumF s.length s

/-- Stop words removed by `normalize_question` (`chatbot.py`, line 263). -/
def stopWords : List Str :=
  [str "the", str "a", str "an", str "and", str "or", str "but", str "in",
   str "on", str "at", str "to", str "for", str "of", str "with", str "by"]

/-- Embedding of `TechnicalInterviewChatbot.normalize_question`
(`chatbot.py`, lines 256-266): lowercase, collapse whitespace and strip the
ends, strip trailing sentence punctuation, delete `[q-N]` markers, delete
`question N:` prefixes, then drop stop words and re-join with single spaces. -/
def normalize_question (q : Str) : Str :=
  let lowered := q.map pyLower
  let collapsed := pyStrip (collapseWs lowered)
  let noTrail := stripTrailingPunct collapsed
  let noBr := removeQBr noTrail
  let noNum := removeQNum noBr
  unwords ((words noNum).filter (fun w => !stopWords.contains w))

example : words (str "  hello   world ") = [str "hello", str "world"] := by decide

example : collapseWs (str " a  b") = str " a b" := by decide

example : pyStrip (str "  a b  ") = str "a b" := by decide

example : unwords [str "a", str "bc"] = str "a bc" := by decide

example : stripTrailingPunct (str "done?!.") = str "done" := by decide

example : removeQBr (str "x [q-42] y") = str "x  y" := by decide

example : removeQBr (str "[q-[q-1]2]") = str "[q-2]" := by decide

example : removeQNum (str "question 3: what") = str " what" := by decide

example :
    normalize_question (str "The question  3: What is an API?") =
      str "what is api" := by decide

example : normalize_question (str "hi. question 1:") = str "hi." := by decide

example : normalize_question (str "hi.") = str "hi" := by decide

/-- Embedding of `calculate_question_similarity` (`chatbot.py`, lines
316-325): Jaccard index of the whitespace-token sets of the two texts; `0.0`
when either token set is empty. Floats are modelled as rationals. -/
def calculate_question_similarity (question1 question2 : Str) : ℚ :=
  let words1 := (words question1).toFinset
  let words2 := (words question2).toFinset
  if words1 = ∅ ∨ words2 = ∅ then 0
  else ((words1 ∩ words2).card : ℚ) / ((words1 ∪ words2).card : ℚ)

/-- Embedding of `is_question_duplicate` (`chatbot.py`, lines 303-314);
`asked` is the chatbot's `self.asked_questions` set of normalized
fingerprints. -/
def is_question_duplicate (asked : Finset Str) (new_question : Str) : Bool :=
  if new_question.isEmpty || (pyStrip new_question).isEmpty then true
  else
    let normalized_new := normalize_question new_question
    if normalized_new ∈ asked then true
    else if ∃ e ∈ asked, calculate_question_similarity normalized_new e > 0.8 then true
    else false

/-- State of the duplicate-question tracker: the chatbot's
`asked_questions` (normalized fingerprints) and `asked_questions_raw`
(ordered raw texts). -/
structure QuestionTracker where
  asked_questions : Finset Str
  asked_questions_raw : List Str
deriving DecidableEq

/-- Embedding of `add_question_to_tracking` (`chatbot.py`, lines 327-332). -/
def add_question_to_tracking (t : QuestionTracker) (question : Str) :
    QuestionTracker :=
  if !question.isEmpty && !(pyStrip question).isEmpty then
    { asked_questions := insert (normalize_question question) t.asked_questions,
      asked_questions_raw := t.asked_questions_raw ++ [question] }
  else t

/-- Digit-run tail of a Python integer literal: decimal digits optionally
separated by single underscores, accumulating the value. -/
def parseDigitsAcc : Nat → Str → Option Nat
  | acc, [] => some acc
  | acc, '_' :: c :: rest =>
    if c.isDigit then parseDigitsAcc (acc * 10 + (c.toNat - 48)) rest else none
  | acc, c :: rest =>
    if c.isDigit then parseDigitsAcc (acc * 10 + (c.toNat - 48)) rest else none

/-- Nonempty digit run (with optional single underscore separators). -/
def parseNatPy : Str → Option Nat
  | [] => none
  | c :: rest => if c.isDigit then parseDigitsAcc (c.toNat - 48) rest else none

/-- Model of Python's `int(s)` on a string: optional surrounding whitespace,
optional sign, then decimal digits optionally separated by single
underscores. Any other shape raises `ValueError`, modelled as `none`. -/
def pyInt (s : Str) : Option Int :=
  match pyStrip s with
  | '+' :: rest => (parseNatPy rest).map (fun n => (n : Int))
  | '-' :: rest => (parseNatPy rest).map (fun n => -(n : Int))
  | rest => (parseNatPy rest).map (fun n => (n : Int))

/-- Embedding of `get_experience_level` (`chatbot.py`, lines 881-894):
bucket the textual experience-years value; the bare `except` maps every
parse failure to `"mid-level"`. -/
def get_experience_level (years : Str) : Str :=
  match pyInt years with
  | none => str "mid-level"
  | some y =>
    if y ≤ 2 then str "junior"
    else if y ≤ 5 then str "mid-level"
    else if y ≤ 10 then str "senior"
    else str "expert"

/-- Loop behind `splitOnComma`. -/
def splitOnCommaAux : Str → Str → List Str
  | [], acc => [acc.reverse]
  | c :: rest, acc =>
    if c = ',' then acc.reverse :: splitOnCommaAux rest []
    else splitOnCommaAux rest (c :: acc)

/-- Python `s.split(',')`: split at every comma, keeping empty pieces. -/
def splitOnComma (s : Str) : List Str := splitOnCommaAux s []

/-- Structured record built by the `except` branch of
`analyze_candidate_profile`; the `experience_level_per_tech` entry is the
constant empty mapping and carries no information. -/
structure FallbackProfile where
  primary_technologies : List Str
  position_category : Str
  complexity_level : Str
  interview_approach : Str
deriving DecidableEq

/-- Embedding of the `except` branch of `analyze_candidate_profile`
(`chatbot.py`, lines 105-114): the deterministic fallback profile synthesized
when the oracle call or the JSON parse of its reply fails. -/
def fallback_profile (tech_stack experience_years : Str) : FallbackProfile :=
  { primary_technologies := (splitOnComma tech_stack).take 3,
    position_category := str "fullstack",
    complexity_level := get_experience_level experience_years,
    interview_approach := str "scenario-based" }

example : get_experience_level (str "3") = str "mid-level" := by decide

example : get_experience_level (str "2") = str "junior" := by decide

example : get_experience_level (str "50.1") = str "mid-level" := by decide

example :
    (fallback_profile (str "Python, PostgreSQL") (str "11")).complexity_level =
      str "expert" := by decide

/-- Per-response sentiment record, the shape produced by
`SentimentAnalyzer.analyze_single_response`; `key_indicators := none` models
a Python dict without that key. -/
structure SentimentRecord where
  sentiment : Str
  confidence : ℚ
  emotional_tone : Str
  engagement_level : Str
  technical_confidence : Str
  key_indicators : Option (List Str)
deriving DecidableEq

/-- Parsed JSON reply of the sentiment oracle, before validation; `none`
fields model missing keys (`dict.get` returning `None`). The numeric
`confidence` is kept as a plain rational. -/
structure RawSentiment where
  sentiment : Option Str
  confidence : ℚ
  emotional_tone : Option Str
  engagement_level : Option Str
  technical_confidence : Option Str
  key_indicators : Option (List Str)

/-- Valid sentiment labels (`sentiment_analyzer.py`, line 52). -/
def valid_sentiments : List Str := [str "positive", str "negative", str "neutral"]

/-- Valid emotional tones (`sentiment_analyzer.py`, line 53). -/
def valid_tones : List Str :=
  [str "confident", str "uncertain", str "enthusiastic", str "nervous",
   str "calm", str "frustrated"]

/-- Valid engagement levels (`sentiment_analyzer.py`, line 54). -/
def valid_levels : List Str := [str "high", str "medium", str "low"]

/-- Validation step of `analyze_single_response` (`sentiment_analyzer.py`,
lines 51-65): out-of-range or missing enum fields are replaced by defaults;
`confidence` is passed through unvalidated, as in the source. -/
def validateSentiment (r : RawSentiment) : SentimentRecord :=
  { sentiment :=
      match r.sentiment with
      | some s => if valid_sentiments.contains s then s else str "neutral"
      | none => str "neutral",
    confidence := r.confidence,
    emotional_tone :=
      match r.emotional_tone with
      | some s => if valid_tones.contains s then s else str "calm"
      | none => str "calm",
    engagement_level :=
      match r.engagement_level with
      | some s => if valid_levels.contains s then s else str "medium"
      | none => str "medium",
    technical_confidence :=
      match r.technical_confidence with
      | some s =>
        if (valid_levels ++ [str "unknown"]).contains s then s else str "unknown"
      | none => str "unknown",
    key_indicators := r.key_indicators }

/-- Embedding of `SentimentAnalyzer.analyze_single_response`
(`sentiment_analyzer.py`, lines 12-77). The Gemini call plus JSON parse is
the parameter `oracle`: it returns `some` parsed record, or `none` for any
failure (exception or malformed JSON), which the `except` branch turns into
the fixed default record. The second component counts oracle calls made. -/
def analyze_single_response (oracle : Str → Str → Option RawSentiment)
    (question answer : Str) : SentimentRecord × Nat :=
  if answer.map pyLower = str "skipped" ∨ (pyStrip answer).length < 5 then
    ({ sentiment := str "neutral", confidence := 0,
       emotional_tone := str "neutral", engagement_level := str "low",
       technical_confidence := str "unknown", key_indicators := none }, 0)
  else
    match oracle question answer with
    | some raw => (validateSentiment raw, 1)
    | none =>
      ({ sentiment := str "neutral", confidence := 1 / 2,
         emotional_tone := str "calm", engagement_level := str "medium",
         technical_confidence := str "unknown", key_indicators := some [] }, 1)

example :
    is_question_duplicate {str "tell me about python"} (str "  ") = true := by
  decide

example :
    is_question_duplicate {str "tell me about python"}
      (str "Tell me about Python!") = true := by decide

/-- Conversation states of `TechnicalInterviewChatbot` (`chatbot.py`, lines
21-25). The `tech_stack` state is declared in the source but no transition
ever enters it. -/
inductive BotState
  | greeting
  | collecting_info
  | tech_stack
  | technical_questions
  | completed
deriving DecidableEq

/-- Python dict from field name to string value; only lookup and
insert-or-update are used by the orchestrator. -/
abbrev StrDict := List (Str × Str)

/-- Dict update: overwrite an existing key in place, else append. -/
def dictSet (d : StrDict) (k v : Str) : StrDict :=
  if d.any (fun p => p.1 == k) then
    d.map (fun p => if p.1 = k then (k, v) else p)
  else d ++ [(k, v)]

/-- Dict lookup. -/
def dictGet (d : StrDict) (k : Str) : Option Str :=
  (d.find? (fun p => p.1 == k)).map (fun p => p.2)

/-- One entry of `self.responses` (`chatbot.py`, lines 697-703). The source
entry also carries a wall-clock timestamp and the oracle's sentiment record;
neither is read by the control flow under verification, so they are omitted
from the model. -/
structure ResponseEntry where
  question : Str
  answer : Str
  question_number : Nat
deriving DecidableEq

/-- Slice of the chatbot's mutable state read or written by the state
machine. -/
structure Session where
  current_state : BotState
  candidate_info : StrDict
  current_field_index : Nat
  tech_questions : List Str
  current_question_index : Nat
  responses : List ResponseEntry
deriving DecidableEq

/-- Answers supplied by the text-generation oracle during one turn. The
question-generation helpers (`generate_personalized_first_question`,
`analyze_response_depth_and_generate_followup`,
`generate_context_aware_next_question`) consult the oracle, retry against
the duplicate tracker, and always return some question text; the results any
single turn can consume are the fields below. `needs_followup` and
`followup_question` mirror the pair returned by
`analyze_response_depth_and_generate_followup`. -/
structure TurnOracle where
  first_question : Str
  needs_followup : Bool
  followup_question : Str
  next_question : Str

/-- Identity of the message a turn returns, with the data the verified
properties mention; wording and markdown are presentation. `fieldPrompt k`
is the `field_prompts[k]` prompt text re-asking for field `k`;
`fallbackMsg` is the closing "not sure how to help" line. -/
inductive Reply
  | exitMsg
  | greetingReply (name : Str)
  | fieldPrompt (k : Str)
  | startTech (firstQ : Str)
  | followupMsg (q : Str)
  | nextQuestionMsg (q : Str)
  | finalReport
  | completedMsg
  | fallbackMsg
deriving DecidableEq

/-- Exit keywords (`chatbot.py`, line 56). -/
def exit_keywords : List Str :=
  [str "exit", str "quit", str "bye", str "goodbye", str "end", str "stop"]

/-- Ordered field list `self.info_fields` (`chatbot.py`, lines 44-52). -/
def info_fields : List Str :=
  [str "full_name", str "email", str "phone", str "experience_years",
   str "desired_positions", str "location", str "tech_stack"]

/-- Keys of the `field_prompts` dict local to `handle_info_collection`
(`chatbot.py`, lines 923-929), in insertion order. -/
def field_prompt_keys : List Str :=
  [str "email", str "phone", str "experience_years",
   str "desired_positions", str "location"]

/-- Embedding of `start_technical_questions` (`chatbot.py`, lines 657-687):
runs the profile analysis and first-question generation (oracle calls, whose
outcome is `o.first_question`), stores the question list, and enters the
technical-questions state. -/
def start_technical_questions (o : TurnOracle) (s : Session) : Session × Reply :=
  ({ s with tech_questions := [o.first_question],
            current_question_index := 0,
            current_state := BotState.technical_questions },
   Reply.startTech o.first_question)

/-- Embedding of `handle_greeting` (`chatbot.py`, lines 915-919). -/
def handle_greeting (s : Session) (user_input : Str) : Session × Reply :=
  ({ s with
      candidate_info := dictSet s.candidate_info (str "full_name") user_input,
      current_state := BotState.collecting_info },
   Reply.greetingReply user_input)

/-- Slot that `handle_info_collection` stores into:
`list(field_prompts.keys())[current_field_index - 1]` when the index is
positive, else `"email"` (`chatbot.py`, line 931). Indexing past the end
raises in Python and is unreachable; it is modelled by the default `""`. -/
def currentCollectionKey (idx : Nat) : Str :=
  if idx > 0 then field_prompt_keys.getD (idx - 1) (str "") else str "email"

/-- Embedding of `handle_info_collection` (`chatbot.py`, lines 921-942):
store the input under `field_prompts` key number `current_field_index - 1`
(key `"email"` when the index is 0), advance the index, and either issue the
next field's prompt or store the tech stack and start the questions. -/
def handle_info_collection (o : TurnOracle) (s : Session) (user_input : Str) :
    Session × Reply :=
  let current_field := currentCollectionKey s.current_field_index
  let info1 := dictSet s.candidate_info current_field user_input
  let idx1 := s.current_field_index + 1
  if idx1 < field_prompt_keys.length then
    ({ s with candidate_info := info1, current_field_index := idx1 },
     Reply.fieldPrompt (field_prompt_keys.getD (idx1 - 1) (str "")))
  else
    start_technical_questions o
      { s with candidate_info := dictSet info1 (str "tech_stack") user_input,
               current_field_index := idx1 }

/-- Embedding of `handle_technical_questions` (`chatbot.py`, lines 689-756):
always append the response entry; then, for a non-skip answer while at most
six responses are stored, ask the oracle-suggested follow-up when one is
wanted and non-empty; otherwise generate a next question while fewer than
seven responses are stored; otherwise complete the interview with the final
report. -/
def handle_technical_questions (o : TurnOracle) (s : Session) (user_input : Str) :
    Session × Reply :=
  let current_question := s.tech_questions.getD s.current_question_index (str "")
  let entry : ResponseEntry :=
    { question := current_question,
      answer :=
        if user_input.map pyLower = str "skip" then str "Skipped" else user_input,
      question_number := s.responses.length + 1 }
  let s1 := { s with responses := s.responses ++ [entry] }
  if user_input.map pyLower ≠ str "skip" ∧ s1.responses.length ≤ 6 ∧
      o.needs_followup = true ∧ o.followup_question ≠ [] then
    ({ s1 with tech_questions := s1.tech_questions ++ [o.followup_question],
               current_question_index := s1.current_question_index + 1 },
     Reply.followupMsg o.followup_question)
  else if s1.responses.length < 7 then
    ({ s1 with tech_questions := s1.tech_questions ++ [o.next_question],
               current_question_index := s1.current_question_index + 1 },
     Reply.nextQuestionMsg o.next_question)
  else
    ({ s1 with current_state := BotState.completed }, Reply.finalReport)

/-- Embedding of `process_input` (`chatbot.py`, lines 896-913): strip the
input, answer exit keywords with the closing message, else dispatch on the
current state. -/
def process_input (o : TurnOracle) (s : Session) (user_input : Str) :
    Session × Reply :=
  let input := pyStrip user_input
  if input.map pyLower ∈ exit_keywords then (s, Reply.exitMsg)
  else
    match s.current_state with
    | BotState.greeting => handle_greeting s input
    | BotState.collecting_info => handle_info_collection o s input
    | BotState.technical_questions => handle_technical_questions o s input
    | BotState.completed => (s, Reply.completedMsg)
    | BotState.tech_stack => (s, Reply.fallbackMsg)

/-- Fresh session as built by `__init__` (`chatbot.py`, lines 27-53). -/
def initial_session : Session :=
  { current_state := BotState.greeting, candidate_info := [],
    current_field_index := 0, tech_questions := [],
    current_question_index := 0, responses := [] }

/-- Fold a list of user inputs through `process_input`, keeping the state. -/
def run_inputs (o : TurnOracle) (s : Session) (inputs : List Str) : Session :=
  inputs.foldl (fun st inp => (process_input o st inp).1) s

/-- A concrete oracle used by closed evaluations. -/
def sampleOracle : TurnOracle :=
  { first_question := str "How would you design a Python service?",
    needs_followup := false,
    followup_question := [],
    next_question := str "Describe a PostgreSQL index you added." }

/-- Inputs of the specification's happy-path scenario, in order. -/
def happyPathInputs : List Str :=
  [str "Ana", str "ana@x.com", str "5551234567", str "3",
   str "Backend Engineer", str "Remote"]

example :
    (run_inputs sampleOracle initial_session happyPathInputs).current_state =
      BotState.technical_questions := by decide

example :
    dictGet (run_inputs sampleOracle initial_session happyPathInputs).candidate_info
      (str "email") = some (str "5551234567") := by decide

/-! Unfolding equations and token facts for `words`. -/

theorem wordsAux_nil_acc (acc : Str) (h : acc ≠ []) :
    wordsAux [] acc = [acc.reverse] := by
  cases acc with
  | nil => exact absurd rfl h
  | cons a l => rfl

theorem words_cons_of_space {c : Char} (rest : Str) (h : pySpace c = true) :
    words (c :: rest) = words rest := by
  simp [words, wordsAux, h]

theorem wordsAux_acc_ne_nil (s : Str) : ∀ acc : Str, acc ≠ [] →
    wordsAux s acc =
      (acc.reverse ++ s.takeWhile nonSpace) :: words (s.dropWhile nonSpace) := by
  induction s with
  | nil =>
    intro acc h
    rw [wordsAux_nil_acc acc h]
    simp [words, wordsAux]
  | cons c rest ih =>
    intro acc h
    by_cases hc : pySpace c = true
    · have hns : ¬ nonSpace c = true := by simp [nonSpace, hc]
      have h1 : wordsAux (c :: rest) acc = acc.reverse :: wordsAux rest [] := by
        cases acc with
        | nil => exact absurd rfl h
        | cons a l => simp [wordsAux, hc]
      rw [h1, List.takeWhile_cons_of_neg hns, List.dropWhile_cons_of_neg hns,
        List.append_nil, words_cons_of_space rest hc]
      rfl
    · have hns : nonSpace c = true := by simp [nonSpace, hc]
      have h1 : wordsAux (c :: rest) acc = wordsAux rest (c :: acc) := by
        simp [wordsAux, hc]
      rw [h1, ih (c :: acc) (List.cons_ne_nil c acc),
        List.takeWhile_cons_of_pos hns, List.dropWhile_cons_of_pos hns]
      simp

theorem words_cons_of_nonspace {c : Char} (rest : Str) (h : pySpace c = false) :
    words (c :: rest) =
      (c :: rest.takeWhile nonSpace) :: words (rest.dropWhile nonSpace) := by
  have hns : nonSpace c = true := by simp [nonSpace, h]
  have h1 : words (c :: rest) = wordsAux rest [c] := by
    simp [words, wordsAux, h]
  rw [h1, wordsAux_acc_ne_nil rest [c] (List.cons_ne_nil c [])]
  rfl

theorem wordsAux_token_shape (s : Str) : ∀ acc : Str,
    (∀ c ∈ acc, pySpace c = false) →
    ∀ w ∈ wordsAux s acc, w ≠ [] ∧ ∀ c ∈ w, pySpace c = false := by
  induction s with
  | nil =>
    intro acc hacc w hw
    cases acc with
    | nil => simp [wordsAux] at hw
    | cons a l =>
      simp [wordsAux] at hw
      subst hw
      refine ⟨by simp, ?_⟩
      intro c hc
      exact hacc c (List.mem_reverse.mp (by simpa using hc))
  | cons b rest ih =>
    intro acc hacc w hw
    by_cases hb : pySpace b = true
    · cases acc with
      | nil =>
        simp [wordsAux, hb] at hw
        exact ih [] (by simp) w hw
      | cons a l =>
        simp only [wordsAux, hb, if_true, List.isEmpty_cons, if_false,
          Bool.false_eq_true, List.mem_cons] at hw
        rcases hw with rfl | hw
        · refine ⟨by simp, ?_⟩
          intro c hc
          exact hacc c (List.mem_reverse.mp (by simpa using hc))
        · exact ih [] (by simp) w hw
    · have h1 : wordsAux (b :: rest) acc = wordsAux rest (b :: acc) := by
        simp [wordsAux, hb]
      rw [h1] at hw
      refine ih (b :: acc) ?_ w hw
      intro c hc
      rcases List.mem_cons.mp hc with rfl | hc
      · simpa using hb
      · exact hacc c hc

/-- Tokens produced by `words` are nonempty and whitespace-free. -/
theorem words_token_shape (s : Str) :
    ∀ w ∈ words s, w ≠ [] ∧ ∀ c ∈ w, pySpace c = false :=
  wordsAux_token_shape s [] (by simp)

theorem wordsAux_token_chars (s : Str) : ∀ acc : Str,
    ∀ w ∈ wordsAux s acc, ∀ c ∈ w, c ∈ s ∨ c ∈ acc := by
  induction s with
  | nil =>
    intro acc w hw c hc
    cases acc with
    | nil => simp [wordsAux] at hw
    | cons a l =>
      simp [wordsAux] at hw
      subst hw
      exact Or.inr (List.mem_reverse.mp (by simpa using hc))
  | cons b rest ih =>
    intro acc w hw c hc
    by_cases hb : pySpace b = true
    · cases acc with
      | nil =>
        simp [wordsAux, hb] at hw
        rcases ih [] w hw c hc with h | h
        · exact Or.inl (List.mem_cons_of_mem b h)
        · simp at h
      | cons a l =>
        simp only [wordsAux, hb, if_true, List.isEmpty_cons, if_false,
          Bool.false_eq_true, List.mem_cons] at hw
        rcases hw with rfl | hw
        · exact Or.inr (List.mem_reverse.mp (by simpa using hc))
        · rcases ih [] w hw c hc with h | h
          · exact Or.inl (List.mem_cons_of_mem b h)
          · simp at h
    · have h1 : wordsAux (b :: rest) acc = wordsAux rest (b :: acc) := by
        simp [wordsAux, hb]
      rw [h1] at hw
      rcases ih (b :: acc) w hw c hc with h | h
      · exact Or.inl (List.mem_cons_of_mem b h)
      · rcases List.mem_cons.mp h with rfl | h
        · exact Or.inl (List.mem_cons_self c rest)
        · exact Or.inr h

/-- Every character of a `words` token occurs in the split text. -/
theorem words_token_chars (s : Str) :
    ∀ w ∈ words s, ∀ c ∈ w, c ∈ s := by
  intro w hw c hc
  rcases wordsAux_token_chars s [] w hw c hc with h | h
  · exact h
  · simp at h

/-! Character facts: ASCII lowercasing is idempotent and preserves the
character classes the normalizer inspects. -/

theorem char_toNat_ofNat {n : Nat} (h : n < 55296) : (Char.ofNat n).toNat = n := by
  rw [Char.ofNat, dif_pos (Or.inl (by omega))]
  simp [Char.ofNatAux, Char.toNat, UInt32.ofNat', UInt32.toNat]

theorem char_eq_of_toNat_eq {c d : Char} (h : c.toNat = d.toNat) : c = d :=
  Char.ext (UInt32.toNat.inj h)

theorem pyLower_toNat (c : Char) :
    (pyLower c).toNat = if c.toNat ≥ 65 ∧ c.toNat ≤ 90 then c.toNat + 32 else c.toNat := by
  unfold pyLower Char.toLower
  by_cases h : c.toNat ≥ 65 ∧ c.toNat ≤ 90
  · rw [if_pos h, if_pos h]
    exact char_toNat_ofNat (by omega)
  · rw [if_neg h, if_neg h]

theorem pyLower_pyLower (c : Char) : pyLower (pyLower c) = pyLower c := by
  unfold pyLower Char.toLower
  by_cases h : c.toNat ≥ 65 ∧ c.toNat ≤ 90
  · rw [if_pos h]
    have hv : (Char.ofNat (c.toNat + 32)).toNat = c.toNat + 32 :=
      char_toNat_ofNat (by omega)
    rw [if_neg (by omega)]
  · rw [if_neg h, if_neg h]

theorem pyLower_space : pyLower ' ' = ' ' := by decide

/-- Characters whose presence can let a second normalization pass strip
more text: the trailing punctuation class and the anchor characters of the
two artifact regexes. -/
def isArtifactChar (c : Char) : Bool :=
  c == '.' || c == '!' || c == '?' || c == '[' || c == ':'

theorem isArtifactChar_iff_toNat {c : Char} :
    isArtifactChar c = true ↔
      c.toNat = 46 ∨ c.toNat = 33 ∨ c.toNat = 63 ∨ c.toNat = 91 ∨ c.toNat = 58 := by
  constructor
  · intro h
    simp only [isArtifactChar, Bool.or_eq_true, beq_iff_eq] at h
    rcases h with ((((rfl | rfl) | rfl) | rfl) | rfl) <;> decide
  · intro h
    have : c = '.' ∨ c = '!' ∨ c = '?' ∨ c = '[' ∨ c = ':' := by
      rcases h with h | h | h | h | h
      · exact Or.inl (char_eq_of_toNat_eq h)
      · exact Or.inr (Or.inl (char_eq_of_toNat_eq h))
      · exact Or.inr (Or.inr (Or.inl (char_eq_of_toNat_eq h)))
      · exact Or.inr (Or.inr (Or.inr (Or.inl (char_eq_of_toNat_eq h))))
      · exact Or.inr (Or.inr (Or.inr (Or.inr (char_eq_of_toNat_eq h))))
    simp only [isArtifactChar, Bool.or_eq_true, beq_iff_eq]
    tauto

theorem isArtifactChar_pyLower (c : Char) :
    isArtifactChar (pyLower c) = isArtifactChar c := by
  by_cases h : c.toNat ≥ 65 ∧ c.toNat ≤ 90
  · have h1 : (pyLower c).toNat = c.toNat + 32 := by rw [pyLower_toNat, if_pos h]
    have h2 : isArtifactChar (pyLower c) = false := by
      cases hb : isArtifactChar (pyLower c) with
      | false => rfl
      | true => exact absurd (isArtifactChar_iff_toNat.mp hb) (by omega)
    have h3 : isArtifactChar c = false := by
      cases hb : isArtifactChar c with
      | false => rfl
      | true => exact absurd (isArtifactChar_iff_toNat.mp hb) (by omega)
    rw [h2, h3]
  · have h1 : pyLower c = c := by
      apply char_eq_of_toNat_eq
      rw [pyLower_toNat, if_neg h]
    rw [h1]

/-! Facts about `unwords`. -/

theorem unwords_cons₂ (w w' : Str) (ws : List Str) :
    unwords (w :: w' :: ws) = w ++ ' ' :: unwords (w' :: ws) := rfl

theorem mem_unwords {c : Char} :
    ∀ {ts : List Str}, c ∈ unwords ts → c = ' ' ∨ ∃ w ∈ ts, c ∈ w := by
  intro ts
  induction ts with
  | nil => intro h; simp [unwords] at h
  | cons w ws ih =>
    cases ws with
    | nil =>
      intro h
      exact Or.inr ⟨w, by simp, by simpa [unwords] using h⟩
    | cons w' ws' =>
      intro h
      rw [unwords_cons₂, List.mem_append] at h
      rcases h with h | h
      · exact Or.inr ⟨w, by simp, h⟩
      · rcases List.mem_cons.mp h with rfl | h
        · exact Or.inl rfl
        · rcases ih h with h | ⟨u, hu, hc⟩
          · exact Or.inl h
          · exact Or.inr ⟨u, List.mem_cons_of_mem w hu, hc⟩

theorem unwords_head_shape (ts : List Str)
    (h : ∀ w ∈ ts, w ≠ [] ∧ ∀ c ∈ w, pySpace c = false) :
    unwords ts = [] ∨
      ∃ c rest, unwords ts = c :: rest ∧ pySpace c = false := by
  cases ts with
  | nil => exact Or.inl rfl
  | cons w ws =>
    obtain ⟨hne, hchars⟩ := h w (by simp)
    cases hw : w with
    | nil => exact absurd hw hne
    | cons c w' =>
      refine Or.inr ⟨c, ?_, ?_, hchars c (by simp [hw])⟩
      cases ws with
      | nil => exact w'
      | cons w₂ ws₂ => exact w' ++ ' ' :: unwords (w₂ :: ws₂)
      cases ws with
      | nil => simp [unwords, hw]
      | cons w₂ ws₂ => simp [unwords_cons₂, hw]

theorem unwords_append_single (xs : List Str) (y : Str) (h : xs ≠ []) :
    unwords (xs ++ [y]) = unwords xs ++ ' ' :: y := by
  induction xs with
  | nil => exact absurd rfl h
  | cons w ws ih =>
    cases ws with
    | nil => rfl
    | cons w' ws' =>
      rw [List.cons_append, List.cons_append, unwords_cons₂ w w' (ws' ++ [y]),
        unwords_cons₂ w w' ws']
      have ih' := ih (List.cons_ne_nil w' ws')
      rw [List.cons_append] at ih'
      rw [ih']
      simp

theorem unwords_reverse (ts : List Str) :
    (unwords ts).reverse = unwords ((ts.map List.reverse).reverse) := by
  induction ts with
  | nil => rfl
  | cons w ws ih =>
    cases ws with
    | nil => simp [unwords]
    | cons w' ws' =>
      have h1 : (unwords (w :: w' :: ws')).reverse
          = (unwords (w' :: ws')).reverse ++ ' ' :: w.reverse := by
        rw [unwords_cons₂, List.reverse_append, List.reverse_cons,
          List.append_assoc, List.singleton_append]
      have h2 : (List.map List.reverse (w :: w' :: ws')).reverse
          = (List.map List.reverse (w' :: ws')).reverse ++ [w.reverse] := by
        rw [List.map_cons, List.reverse_cons]
      rw [h1, h2, unwords_append_single _ _ (by simp), ih]

/-! Identity of the normalization stages on text that is already in
normal form, and conservation of characters by each stage. -/

theorem collapseAux_nonspace_head {b : Bool} {c : Char} (rest : Str)
    (h : pySpace c = false) :
    collapseAux b (c :: rest) = c :: collapseAux false rest := by
  simp [collapseAux, h]

theorem collapseAux_true_eq_false_of_head {s : Str}
    (h : s = [] ∨ ∃ c rest, s = c :: rest ∧ pySpace c = false) :
    collapseAux true s = collapseAux false s := by
  rcases h with rfl | ⟨c, rest, rfl, hc⟩
  · rfl
  · rw [collapseAux_nonspace_head rest hc, collapseAux_nonspace_head rest hc]

theorem collapseAux_spacefree_append (w : Str)
    (hw : ∀ c ∈ w, pySpace c = false) :
    ∀ r, collapseAux false (w ++ r) = w ++ collapseAux false r := by
  induction w with
  | nil => intro r; rfl
  | cons c w' ih =>
    intro r
    rw [List.cons_append, collapseAux_nonspace_head _ (hw c (by simp)),
      ih (fun d hd => hw d (List.mem_cons_of_mem c hd)) r, List.cons_append]

theorem collapseWs_unwords (ts : List Str)
    (h : ∀ w ∈ ts, w ≠ [] ∧ ∀ c ∈ w, pySpace c = false) :
    collapseWs (unwords ts) = unwords ts := by
  induction ts with
  | nil => rfl
  | cons w ws ih =>
    have hw := (h w (by simp)).2
    cases ws with
    | nil =>
      have h1 := collapseAux_spacefree_append w hw []
      rw [show collapseAux false ([] : Str) = [] from rfl, List.append_nil] at h1
      exact h1
    | cons w' ws' =>
      have hrest : ∀ u ∈ w' :: ws', u ≠ [] ∧ ∀ c ∈ u, pySpace c = false :=
        fun u hu => h u (List.mem_cons_of_mem w hu)
      have ihr : collapseAux false (unwords (w' :: ws')) = unwords (w' :: ws') := ih hrest
      rw [unwords_cons₂]
      show collapseAux false (w ++ ' ' :: unwords (w' :: ws')) = _
      rw [collapseAux_spacefree_append w hw]
      have hsp : pySpace ' ' = true := by decide
      have h2 : collapseAux false (' ' :: unwords (w' :: ws')) =
          ' ' :: collapseAux true (unwords (w' :: ws')) := by
        simp [collapseAux, hsp]
      rw [h2, collapseAux_true_eq_false_of_head (unwords_head_shape _ hrest), ihr]

theorem dropWhile_eq_self_of_head {p : Char → Bool} {s : Str}
    (h : s = [] ∨ ∃ c rest, s = c :: rest ∧ p c = false) :
    s.dropWhile p = s := by
  rcases h with rfl | ⟨c, rest, rfl, hc⟩
  · rfl
  · exact List.dropWhile_cons_of_neg (by simp [hc])

theorem shape_map_reverse {ts : List Str}
    (h : ∀ w ∈ ts, w ≠ [] ∧ ∀ c ∈ w, pySpace c = false) :
    ∀ w ∈ (ts.map List.reverse).reverse, w ≠ [] ∧ ∀ c ∈ w, pySpace c = false := by
  intro w hw
  rw [List.mem_reverse, List.mem_map] at hw
  obtain ⟨u, hu, rfl⟩ := hw
  obtain ⟨hne, hch⟩ := h u hu
  exact ⟨by simpa using hne, fun c hc => hch c (List.mem_reverse.mp hc)⟩

theorem pyStrip_unwords (ts : List Str)
    (h : ∀ w ∈ ts, w ≠ [] ∧ ∀ c ∈ w, pySpace c = false) :
    pyStrip (unwords ts) = unwords ts := by
  unfold pyStrip
  rw [dropWhile_eq_self_of_head (unwords_head_shape ts h), unwords_reverse ts,
    dropWhile_eq_self_of_head (unwords_head_shape _ (shape_map_reverse h)),
    ← unwords_reverse ts, List.reverse_reverse]

theorem dropWhile_eq_self_of_no {p : Char → Bool} {s : Str}
    (h : ∀ c ∈ s, p c = false) : s.dropWhile p = s := by
  cases s with
  | nil => rfl
  | cons c rest => exact List.dropWhile_cons_of_neg (by simp [h c (by simp)])

theorem stripTrailingPunct_of_no {s : Str}
    (h : ∀ c ∈ s, isTrailPunct c = false) : stripTrailingPunct s = s := by
  unfold stripTrailingPunct
  rw [dropWhile_eq_self_of_no (fun c hc => h c (List.mem_reverse.mp hc)),
    List.reverse_reverse]

theorem tryQBr_none_of_head {c : Char} (rest : Str) (h : c ≠ '[') :
    tryQBr (c :: rest) = none := by
  cases rest with
  | nil => rfl
  | cons c2 r2 =>
    cases r2 with
    | nil => rfl
    | cons c3 r3 => simp [tryQBr, h]

theorem removeQBrF_of_no_bracket :
    ∀ (fuel : Nat) (s : Str), '[' ∉ s → removeQBrF fuel s = s := by
  intro fuel
  induction fuel with
  | zero => intro s _; rfl
  | succ f ih =>
    intro s hbr
    cases s with
    | nil => rfl
    | cons c rest =>
      have hc : c ≠ '[' := fun he => hbr (by rw [he]; exact List.mem_cons_self _ _)
      have htry := tryQBr_none_of_head rest hc
      simp only [removeQBrF, htry]
      rw [ih rest (fun hm => hbr (List.mem_cons_of_mem c hm))]

theorem removeQBr_of_no_bracket {s : Str} (h : '[' ∉ s) : removeQBr s = s :=
  removeQBrF_of_no_bracket s.length s h

theorem tryQNum_some_mem : ∀ {s rem : Str}, tryQNum s = some rem → ':' ∈ s := by
  intro s rem h
  rcases s with _ | ⟨c1, _ | ⟨c2, _ | ⟨c3, _ | ⟨c4, _ | ⟨c5, _ | ⟨c6, _ | ⟨c7,
    _ | ⟨c8, _ | ⟨c9, rest⟩⟩⟩⟩⟩⟩⟩⟩⟩ <;> simp only [tryQNum] at h <;>
    try cases h
  split at h
  · split at h
    · cases h
    · split at h
      · next rem' heq =>
        have h1 : ':' ∈ rest.drop (rest.takeWhile Char.isDigit).length := by
          rw [heq]; exact List.mem_cons_self _ _
        have h2 := List.mem_of_mem_drop h1
        simp [h2]
      · cases h
  · cases h

theorem removeQNumF_of_no_colon :
    ∀ (fuel : Nat) (s : Str), ':' ∉ s → removeQNumF fuel s = s := by
  intro fuel
  induction fuel with
  | zero => intro s _; rfl
  | succ f ih =>
    intro s hcol
    cases s with
    | nil => rfl
    | cons c rest =>
      have htry : tryQNum (c :: rest) = none := by
        cases he : tryQNum (c :: rest) with
        | none => rfl
        | some rem => exact absurd (tryQNum_some_mem he) hcol
      simp only [removeQNumF, htry]
      rw [ih rest (fun hm => hcol (List.mem_cons_of_mem c hm))]

theorem removeQNum_of_no_colon {s : Str} (h : ':' ∉ s) : removeQNum s = s :=
  removeQNumF_of_no_colon s.length s h

theorem mem_collapseAux {c : Char} :
    ∀ {b : Bool} {s : Str}, c ∈ collapseAux b s → c = ' ' ∨ c ∈ s := by
  intro b s
  induction s generalizing b with
  | nil => intro h; simp [collapseAux] at h
  | cons d rest ih =>
    intro h
    by_cases hd : pySpace d = true
    · cases b with
      | true =>
        simp only [collapseAux, hd, if_true] at h
        rcases ih h with h | h
        · exact Or.inl h
        · exact Or.inr (List.mem_cons_of_mem d h)
      | false =>
        simp only [collapseAux, hd, if_true] at h
        rcases List.mem_cons.mp h with rfl | h
        · exact Or.inl rfl
        · rcases ih h with h | h
          · exact Or.inl h
          · exact Or.inr (List.mem_cons_of_mem d h)
    · rw [collapseAux_nonspace_head rest (by simpa using hd)] at h
      rcases List.mem_cons.mp h with rfl | h
      · exact Or.inr (List.mem_cons_self _ _)
      · rcases ih h with h | h
        · exact Or.inl h
        · exact Or.inr (List.mem_cons_of_mem d h)

theorem mem_pyStrip {c : Char} {s : Str} (h : c ∈ pyStrip s) : c ∈ s := by
  unfold pyStrip at h
  rw [List.mem_reverse] at h
  exact (List.dropWhile_subset _) (List.mem_reverse.mp (List.dropWhile_subset _ h))

theorem mem_stripTrailingPunct {c : Char} {s : Str}
    (h : c ∈ stripTrailingPunct s) : c ∈ s := by
  unfold stripTrailingPunct at h
  rw [List.mem_reverse] at h
  exact List.mem_reverse.mp (List.dropWhile_subset _ h)

theorem tryQBr_some_subset : ∀ {s rem : Str}, tryQBr s = some rem → ∀ c ∈ rem, c ∈ s := by
  intro s rem h
  rcases s with _ | ⟨c1, _ | ⟨c2, _ | ⟨c3, rest⟩⟩⟩ <;> simp only [tryQBr] at h <;>
    try cases h
  split at h
  · split at h
    · cases h
    · split at h
      · next rem' heq =>
        cases h
        intro c hc
        have h1 : c ∈ rest.drop (rest.takeWhile Char.isDigit).length := by
          rw [heq]; exact List.mem_cons_of_mem _ hc
        have h2 := List.mem_of_mem_drop h1
        simp [h2]
      · cases h
  · cases h

theorem tryQNum_some_subset : ∀ {s rem : Str}, tryQNum s = some rem → ∀ c ∈ rem, c ∈ s := by
  intro s rem h
  rcases s with _ | ⟨c1, _ | ⟨c2, _ | ⟨c3, _ | ⟨c4, _ | ⟨c5, _ | ⟨c6, _ | ⟨c7,
    _ | ⟨c8, _ | ⟨c9, rest⟩⟩⟩⟩⟩⟩⟩⟩⟩ <;> simp only [tryQNum] at h <;>
    try cases h
  split at h
  · split at h
    · cases h
    · split at h
      · next rem' heq =>
        cases h
        intro c hc
        have h1 : c ∈ rest.drop (rest.takeWhile Char.isDigit).length := by
          rw [heq]; exact List.mem_cons_of_mem _ hc
        have h2 := List.mem_of_mem_drop h1
        simp [h2]
      · cases h
  · cases h

theorem mem_removeQBrF {c : Char} :
    ∀ (fuel : Nat) (s : Str), c ∈ removeQBrF fuel s → c ∈ s := by
  intro fuel
  induction fuel with
  | zero => intro s h; exact h
  | succ f ih =>
    intro s h
    cases s with
    | nil => exact h
    | cons d rest =>
      cases htry : tryQBr (d :: rest) with
      | some rem =>
        simp only [removeQBrF, htry] at h
        exact tryQBr_some_subset htry c (ih rem h)
      | none =>
        simp only [removeQBrF, htry] at h
        rcases List.mem_cons.mp h with rfl | h
        · exact List.mem_cons_self _ _
        · exact List.mem_cons_of_mem d (ih rest h)

theorem mem_removeQNumF {c : Char} :
    ∀ (fuel : Nat) (s : Str), c ∈ removeQNumF fuel s → c ∈ s := by
  intro fuel
  induction fuel with
  | zero => intro s h; exact h
  | succ f ih =>
    intro s h
    cases s with
    | nil => exact h
    | cons d rest =>
      cases htry : tryQNum (d :: rest) with
      | some rem =>
        simp only [removeQNumF, htry] at h
        exact tryQNum_some_subset htry c (ih rem h)
      | none =>
        simp only [removeQNumF, htry] at h
        rcases List.mem_cons.mp h with rfl | h
        · exact List.mem_cons_self _ _
        · exact List.mem_cons_of_mem d (ih rest h)

theorem words_unwords (ts : List Str)
    (hsh : ∀ w ∈ ts, w ≠ [] ∧ ∀ c ∈ w, pySpace c = false) :
    words (unwords ts) = ts := by
  induction ts with
  | nil => rfl
  | cons w ws ih =>
    obtain ⟨hne, hch⟩ := hsh w (by simp)
    cases hw : w with
    | nil => exact absurd hw hne
    | cons c w' =>
      subst hw
      have hc : pySpace c = false := hch c (by simp)
      have hw' : ∀ d ∈ w', nonSpace d = true := by
        intro d hd
        simp [nonSpace, hch d (List.mem_cons_of_mem c hd)]
      cases ws with
      | nil =>
        show words (c :: w') = [c :: w']
        rw [words_cons_of_nonspace w' hc,
          List.takeWhile_eq_self_iff.mpr hw',
          List.dropWhile_eq_nil_iff.mpr hw']
        rfl
      | cons w₂ ws₂ =>
        have hrest : ∀ u ∈ w₂ :: ws₂, u ≠ [] ∧ ∀ d ∈ u, pySpace d = false :=
          fun u hu => hsh u (List.mem_cons_of_mem _ hu)
        rw [unwords_cons₂, List.cons_append, words_cons_of_nonspace _ hc]
        have hsp : nonSpace ' ' = false := by decide
        have ht : (w' ++ ' ' :: unwords (w₂ :: ws₂)).takeWhile nonSpace = w' := by
          rw [List.takeWhile_append_of_pos hw', List.takeWhile_cons_of_neg (by simp [hsp])]
          exact List.append_nil w'
        have hd : (w' ++ ' ' :: unwords (w₂ :: ws₂)).dropWhile nonSpace =
            ' ' :: unwords (w₂ :: ws₂) := by
          rw [List.dropWhile_append_of_pos hw', List.dropWhile_cons_of_neg (by simp [hsp])]
        rw [ht, hd, words_cons_of_space _ (by decide),
          ih (fun u hu => hsh u (List.mem_cons_of_mem _ hu))]

theorem map_eq_self_of_fixed {f : Char → Char} {s : Str}
    (h : ∀ c ∈ s, f c = c) : s.map f = s := by
  induction s with
  | nil => rfl
  | cons c rest ih =>
    rw [List.map_cons, h c (by simp), ih (fun d hd => h d (List.mem_cons_of_mem c hd))]

/-! Idempotence of `normalize_question` on artifact-free text, and its
failure in general. -/

theorem normalize_stage_chars (q : Str) :
    ∀ c ∈ removeQNum (removeQBr (stripTrailingPunct (pyStrip (collapseWs (q.map pyLower))))),
      c = ' ' ∨ ∃ d ∈ q, c = pyLower d := by
  intro c hc
  simp only [removeQNum, removeQBr] at hc
  have h1 := mem_removeQNumF _ _ hc
  have h2 := mem_removeQBrF _ _ h1
  have h3 := mem_stripTrailingPunct h2
  have h4 := mem_pyStrip h3
  rcases mem_collapseAux h4 with h | h
  · exact Or.inl h
  · rcases List.mem_map.mp h with ⟨d, hd, rfl⟩
    exact Or.inr ⟨d, hd, rfl⟩

theorem normalize_question_unwords_fixed (ts : List Str)
    (hsh : ∀ w ∈ ts, w ≠ [] ∧ ∀ c ∈ w, pySpace c = false)
    (hlow : ∀ w ∈ ts, ∀ c ∈ w, pyLower c = c)
    (hart : ∀ w ∈ ts, ∀ c ∈ w, isArtifactChar c = false)
    (hstop : ∀ w ∈ ts, stopWords.contains w = false) :
    normalize_question (unwords ts) = unwords ts := by
  have hartAll : ∀ c ∈ unwords ts, isArtifactChar c = false := by
    intro c hc
    rcases mem_unwords hc with rfl | ⟨w, hw, hcw⟩
    · decide
    · exact hart w hw c hcw
  have hmap : (unwords ts).map pyLower = unwords ts := by
    apply map_eq_self_of_fixed
    intro c hc
    rcases mem_unwords hc with rfl | ⟨w, hw, hcw⟩
    · exact pyLower_space
    · exact hlow w hw c hcw
  have hpunct : stripTrailingPunct (unwords ts) = unwords ts := by
    apply stripTrailingPunct_of_no
    intro c hc
    have ha := hartAll c hc
    cases hp : isTrailPunct c with
    | false => rfl
    | true =>
      exfalso
      have hcart : isArtifactChar c = true := by
        simp only [isTrailPunct, Bool.or_eq_true, beq_iff_eq] at hp
        simp only [isArtifactChar, Bool.or_eq_true, beq_iff_eq]
        tauto
      rw [hcart] at ha
      cases ha
  have hbr : removeQBr (unwords ts) = unwords ts := by
    apply removeQBr_of_no_bracket
    intro hmem
    have := hartAll '[' hmem
    simp [isArtifactChar] at this
  have hcol : removeQNum (unwords ts) = unwords ts := by
    apply removeQNum_of_no_colon
    intro hmem
    have := hartAll ':' hmem
    simp [isArtifactChar] at this
  have hstop' : ∀ w ∈ ts, (!stopWords.contains w) = true := by
    intro w hw
    simpa using hstop w hw
  show unwords ((words (removeQNum (removeQBr (stripTrailingPunct
      (pyStrip (collapseWs ((unwords ts).map pyLower))))))).filter
        (fun w => !stopWords.contains w)) = unwords ts
  rw [hmap, collapseWs_unwords ts hsh, pyStrip_unwords ts hsh, hpunct, hbr, hcol,
    words_unwords ts hsh, List.filter_eq_self.mpr hstop']

/-- Claim C6, counterexample: `normalize_question` is not idempotent. The
first pass over `"hi. question 1:"` deletes the `question 1:` artifact and
re-joins the surviving token `hi.`, whose trailing period the second pass
then strips. -/
theorem c6_normalize_not_idempotent_cex :
    normalize_question (normalize_question (str "hi. question 1:")) ≠
      normalize_question (str "hi. question 1:") := by decide

/-- Claim C6 (amended): `normalize_question` is idempotent on every input
free of the artifact characters `.`, `!`, `?`, `[`, `:` that feed its
trailing-punctuation and numbering-marker deletions; on artifact-bearing
inputs the first pass can uncover a fresh artifact that only the second pass
removes, so unrestricted idempotence fails. -/
theorem c6_normalize_idempotent_artifact_free (q : Str)
    (h : ∀ c ∈ q, isArtifactChar c = false) :
    normalize_question (normalize_question q) = normalize_question q := by
  have hform : normalize_question q =
      unwords ((words (removeQNum (removeQBr (stripTrailingPunct
        (pyStrip (collapseWs (q.map pyLower))))))).filter
          (fun w => !stopWords.contains w)) := rfl
  rw [hform]
  set n5 := removeQNum (removeQBr (stripTrailingPunct
    (pyStrip (collapseWs (q.map pyLower))))) with hn5
  set ts := (words n5).filter (fun w => !stopWords.contains w) with hts
  have hchars5 : ∀ c ∈ n5, c = ' ' ∨ ∃ d ∈ q, c = pyLower d :=
    normalize_stage_chars q
  have hmemts : ∀ w ∈ ts, w ∈ words n5 := by
    intro w hw
    exact (List.mem_filter.mp hw).1
  have hsh : ∀ w ∈ ts, w ≠ [] ∧ ∀ c ∈ w, pySpace c = false := by
    intro w hw
    exact words_token_shape n5 w (hmemts w hw)
  have htokchars : ∀ w ∈ ts, ∀ c ∈ w, c ∈ n5 := by
    intro w hw c hc
    exact words_token_chars n5 w (hmemts w hw) c hc
  have hlow : ∀ w ∈ ts, ∀ c ∈ w, pyLower c = c := by
    intro w hw c hc
    rcases hchars5 c (htokchars w hw c hc) with rfl | ⟨d, _, rfl⟩
    · exact pyLower_space
    · exact pyLower_pyLower d
  have hart : ∀ w ∈ ts, ∀ c ∈ w, isArtifactChar c = false := by
    intro w hw c hc
    rcases hchars5 c (htokchars w hw c hc) with rfl | ⟨d, hd, rfl⟩
    · decide
    · rw [isArtifactChar_pyLower]
      exact h d hd
  have hstop : ∀ w ∈ ts, stopWords.contains w = false := by
    intro w hw
    have h2 := (List.mem_filter.mp hw).2
    simpa using h2
  exact normalize_question_unwords_fixed ts hsh hlow hart hstop

/-- Witness: the amended C6 theorem applies to the artifact-free text
`"hello world"`. -/
theorem c6_witness :
    (∀ c ∈ str "hello world", isArtifactChar c = false) ∧
      normalize_question (normalize_question (str "hello world")) =
        normalize_question (str "hello world") :=
  ⟨by decide, c6_normalize_idempotent_artifact_free (str "hello world") (by decide)⟩

/-- Claim C7, counterexample: the one-space string is a non-empty string
whose self-similarity is 0.0, not 1.0, because its token set is empty. -/
theorem c7_blank_self_similarity_cex :
    str " " ≠ [] ∧ calculate_question_similarity (str " ") (str " ") ≠ 1 := by
  have h0 : calculate_question_similarity (str " ") (str " ") = 0 := by
    simp only [calculate_question_similarity]
    rw [if_pos (Or.inl (by decide))]
  refine ⟨by decide, ?_⟩
  rw [h0]
  norm_num

/-- Claim C7 (amended): the Jaccard similarity is symmetric and lies in
`[0, 1]`; self-similarity is 1.0 for every string whose token set is
nonempty (rather than for every non-empty string: a whitespace-only string
is non-empty yet has an empty token set and self-similarity 0.0); and the
result is 0.0 whenever either argument's token set is empty. -/
theorem c7_similarity_symm_bounds (a b : Str) :
    calculate_question_similarity a b = calculate_question_similarity b a ∧
    0 ≤ calculate_question_similarity a b ∧
    calculate_question_similarity a b ≤ 1 ∧
    ((words a).toFinset ≠ ∅ → calculate_question_similarity a a = 1) ∧
    ((words a).toFinset = ∅ ∨ (words b).toFinset = ∅ →
      calculate_question_similarity a b = 0) := by
  refine ⟨?_, ?_, ?_, ?_, ?_⟩
  · simp only [calculate_question_similarity]
    by_cases h1 : (words a).toFinset = ∅ <;> by_cases h2 : (words b).toFinset = ∅ <;>
      simp [h1, h2, Finset.inter_comm, Finset.union_comm]
  · simp only [calculate_question_similarity]
    by_cases h : (words a).toFinset = ∅ ∨ (words b).toFinset = ∅
    · rw [if_pos h]
    · rw [if_neg h]
      positivity
  · simp only [calculate_question_similarity]
    by_cases h : (words a).toFinset = ∅ ∨ (words b).toFinset = ∅
    · rw [if_pos h]
      norm_num
    · rw [if_neg h]
      have hne : (words a).toFinset ≠ ∅ := fun he => h (Or.inl he)
      have hpos : 0 < ((words a).toFinset ∪ (words b).toFinset).card := by
        apply Finset.card_pos.mpr
        rcases Finset.nonempty_iff_ne_empty.mpr hne with ⟨x, hx⟩
        exact ⟨x, Finset.mem_union_left _ hx⟩
      rw [div_le_one (by exact_mod_cast hpos)]
      have hsub : (words a).toFinset ∩ (words b).toFinset ⊆
          (words a).toFinset ∪ (words b).toFinset :=
        Finset.Subset.trans Finset.inter_subset_left Finset.subset_union_left
      exact_mod_cast Finset.card_le_card hsub
  · intro h
    simp only [calculate_question_similarity]
    rw [if_neg (by simpa using h), Finset.inter_self, Finset.union_self]
    apply div_self
    have hpos : 0 < (words a).toFinset.card :=
      Finset.card_pos.mpr (Finset.nonempty_iff_ne_empty.mpr h)
    exact_mod_cast hpos.ne'
  · intro h
    simp only [calculate_question_similarity]
    rw [if_pos h]

/-- Witness: the amended C7 self-similarity clause applies to `"hello"`. -/
theorem c7_witness :
    (words (str "hello")).toFinset ≠ ∅ ∧
      calculate_question_similarity (str "hello") (str "hello") = 1 :=
  ⟨by decide, (c7_similarity_symm_bounds (str "hello") (str "hello")).2.2.2.1 (by decide)⟩

/-! Characterization of duplicate detection, and the 0.8 threshold
boundary. -/

theorem is_question_duplicate_iff (asked : Finset Str) (q : Str) :
    is_question_duplicate asked q = true ↔
      (q = [] ∨ pyStrip q = []) ∨ normalize_question q ∈ asked ∨
        ∃ e ∈ asked,
          calculate_question_similarity (normalize_question q) e > 0.8 := by
  unfold is_question_duplicate
  by_cases h1 : (q.isEmpty || (pyStrip q).isEmpty) = true
  · rw [if_pos h1]
    simp only [true_iff]
    left
    simpa using h1
  · rw [if_neg h1]
    by_cases h2 : normalize_question q ∈ asked
    · rw [if_pos h2]
      simp only [true_iff]
      right; left; exact h2
    · rw [if_neg h2]
      by_cases h3 : ∃ e ∈ asked,
          calculate_question_similarity (normalize_question q) e > 0.8
      · rw [if_pos h3]
        simp only [true_iff]
        right; right; exact h3
      · rw [if_neg h3]
        simp only [Bool.false_eq_true, false_iff]
        intro hcon
        rcases hcon with hb | hm | he
        · exact h1 (by simpa using hb)
        · exact h2 hm
        · exact h3 he

/-- Pairwise-distinct one-character tokens (CJK range: fixed by
lowercasing, not whitespace, not artifacts, not stop words), used to realize
exact Jaccard ratios. -/
def tok (i : Nat) : Str := [Char.ofNat (19968 + i)]

/-- Tokens `tok a, …, tok (a+n-1)`. -/
def tokRange (a n : Nat) : List Str := (List.range n).map (fun i => tok (a + i))

/-- A stored fingerprint with 90 tokens. -/
def fpE : Str := unwords (tokRange 0 90)

/-- Candidate sharing 81 of 100 total tokens with `fpE`. -/
def cand81 : Str := unwords (tokRange 0 81 ++ tokRange 90 10)

/-- Candidate sharing 79 of 100 total tokens with `fpE`. -/
def cand79 : Str := unwords (tokRange 0 79 ++ tokRange 90 10)

set_option maxRecDepth 100000 in
theorem cand81_similarity :
    calculate_question_similarity (normalize_question cand81) fpE = 81 / 100 := by
  have hn : normalize_question cand81 = cand81 := by decide
  have hi : ((words cand81).toFinset ∩ (words fpE).toFinset).card = 81 := by decide
  have hu : ((words cand81).toFinset ∪ (words fpE).toFinset).card = 100 := by decide
  have h1 : ¬((words cand81).toFinset = ∅ ∨ (words fpE).toFinset = ∅) := by decide
  rw [hn]
  simp only [calculate_question_similarity]
  rw [if_neg h1, hi, hu]
  norm_num

set_option maxRecDepth 100000 in
theorem cand79_similarity :
    calculate_question_similarity (normalize_question cand79) fpE = 79 / 100 := by
  have hn : normalize_question cand79 = cand79 := by decide
  have hi : ((words cand79).toFinset ∩ (words fpE).toFinset).card = 79 := by decide
  have hu : ((words cand79).toFinset ∪ (words fpE).toFinset).card = 100 := by decide
  have h1 : ¬((words cand79).toFinset = ∅ ∨ (words fpE).toFinset = ∅) := by decide
  rw [hn]
  simp only [calculate_question_similarity]
  rw [if_neg h1, hi, hu]
  norm_num

set_option maxRecDepth 100000 in
theorem cand81_duplicate : is_question_duplicate {fpE} cand81 = true := by
  unfold is_question_duplicate
  rw [if_neg (by decide), if_neg (by decide), if_pos]
  exact ⟨fpE, Finset.mem_singleton_self fpE, by rw [cand81_similarity]; norm_num⟩

set_option maxRecDepth 100000 in
theorem cand79_not_duplicate : is_question_duplicate {fpE} cand79 = false := by
  unfold is_question_duplicate
  rw [if_neg (by decide), if_neg (by decide), if_neg]
  rintro ⟨e, he, hgt⟩
  rw [Finset.mem_singleton] at he
  subst he
  rw [cand79_similarity] at hgt
  norm_num at hgt

/-- Claim C5: `is_question_duplicate` returns true exactly for blank input,
an exact fingerprint match, or Jaccard similarity above 0.8 with some stored
fingerprint; the threshold is strict at 0.8: against a tracker holding the
single fingerprint `fpE`, the candidate `cand81` (similarity exactly 0.81)
is flagged duplicate and `cand79` (similarity exactly 0.79) is not. -/
theorem c5_duplicate_characterization :
    (∀ (asked : Finset Str) (q : Str),
      is_question_duplicate asked q = true ↔
        (q = [] ∨ pyStrip q = []) ∨ normalize_question q ∈ asked ∨
          ∃ e ∈ asked,
            calculate_question_similarity (normalize_question q) e > 0.8) ∧
    calculate_question_similarity (normalize_question cand81) fpE = 81 / 100 ∧
    is_question_duplicate {fpE} cand81 = true ∧
    calculate_question_similarity (normalize_question cand79) fpE = 79 / 100 ∧
    is_question_duplicate {fpE} cand79 = false :=
  ⟨is_question_duplicate_iff, cand81_similarity, cand81_duplicate,
    cand79_similarity, cand79_not_duplicate⟩

/-! Tracker registration, experience bucketing, sentiment guard. -/

/-- Claim C8, counterexample: registering the same non-blank question twice
is not idempotent on the full tracker state — the second call appends the
question to the raw list again. -/
theorem c8_double_register_cex :
    add_question_to_tracking
        (add_question_to_tracking ⟨∅, []⟩ (str "tell me about python"))
        (str "tell me about python") ≠
      add_question_to_tracking ⟨∅, []⟩ (str "tell me about python") := by decide

/-- Claim C8 (amended): registering the same question twice leaves the
normalized-fingerprint set equal to the state after one call, but appends
the raw question to the ordered raw list a second time (for non-blank
input), so the full tracker state is not idempotent. -/
theorem c8_register_fingerprint_idempotent (t : QuestionTracker) (q : Str) :
    (add_question_to_tracking (add_question_to_tracking t q) q).asked_questions =
      (add_question_to_tracking t q).asked_questions ∧
    (add_question_to_tracking (add_question_to_tracking t q) q).asked_questions_raw =
      (add_question_to_tracking t q).asked_questions_raw ++
        (if !q.isEmpty && !(pyStrip q).isEmpty then [q] else []) := by
  unfold add_question_to_tracking
  by_cases h : (!q.isEmpty && !(pyStrip q).isEmpty) = true
  · simp only [h, if_true]
    exact ⟨Finset.insert_idem _ _, trivial⟩
  · simp [h]

/-- Claim C9, counterexample: exactly 2 years of experience is bucketed as
`junior` by the fallback profile, not as the claimed non-junior
`mid-level`. -/
theorem c9_two_years_junior_cex :
    (fallback_profile (str "Python, PostgreSQL") (str "2")).complexity_level =
        str "junior" ∧
      str "junior" ≠ str "mid-level" := by decide

/-- Claim C9 (amended): the fallback profile synthesized on oracle or parse
failure buckets the parsed experience years as junior for at most 2 years
(including exactly 2), mid-level for 3-5, senior for 6-10 and expert for
more than 10; unparseable input maps to mid-level; primary technologies are
the first three comma-separated pieces of the tech stack; and `"3"` maps to
`"mid-level"` while `"2"` maps to `"junior"`. -/
theorem c9_fallback_experience_buckets :
    (∀ (ts exp : Str) (y : ℤ), pyInt exp = some y →
      (fallback_profile ts exp).complexity_level =
        (if y ≤ 2 then str "junior" else if y ≤ 5 then str "mid-level"
         else if y ≤ 10 then str "senior" else str "expert")) ∧
    (∀ ts exp, pyInt exp = none →
      (fallback_profile ts exp).complexity_level = str "mid-level") ∧
    (∀ ts exp, (fallback_profile ts exp).primary_technologies =
      (splitOnComma ts).take 3) ∧
    get_experience_level (str "3") = str "mid-level" ∧
    get_experience_level (str "2") = str "junior" := by
  refine ⟨?_, ?_, ?_, by decide, by decide⟩
  · intro ts exp y hy
    simp only [fallback_profile, get_experience_level, hy]
  · intro ts exp hy
    simp only [fallback_profile, get_experience_level, hy]
  · intro ts exp
    rfl

/-- Witness: the amended C9 bucketing applies to experience `"3"`. -/
theorem c9_witness :
    pyInt (str "3") = some 3 ∧
      (fallback_profile (str "Python, PostgreSQL") (str "3")).complexity_level =
        (if (3 : ℤ) ≤ 2 then str "junior" else if (3 : ℤ) ≤ 5 then str "mid-level"
         else if (3 : ℤ) ≤ 10 then str "senior" else str "expert") :=
  ⟨by decide, c9_fallback_experience_buckets.1 (str "Python, PostgreSQL") (str "3")
    3 (by decide)⟩

/-- Claim C10: for an answer that case-insensitively equals `"skipped"` or
whose trimmed length is below 5, the per-response sentiment analysis makes
no oracle call and returns exactly the fixed neutral record. -/
theorem c10_short_or_skipped_fixed_record
    (oracle : Str → Str → Option RawSentiment) (question answer : Str)
    (h : answer.map pyLower = str "skipped" ∨ (pyStrip answer).length < 5) :
    analyze_single_response oracle question answer =
      ({ sentiment := str "neutral", confidence := 0,
         emotional_tone := str "neutral", engagement_level := str "low",
         technical_confidence := str "unknown", key_indicators := none }, 0) := by
  unfold analyze_single_response
  rw [if_pos h]

/-- Witness: the C10 guard applies to the short answer `"hi"` under an
always-failing oracle. -/
theorem c10_witness :
    ((str "hi").map pyLower = str "skipped" ∨ (pyStrip (str "hi")).length < 5) ∧
      analyze_single_response (fun _ _ => none) (str "What is REST?") (str "hi") =
        ({ sentiment := str "neutral", confidence := 0,
           emotional_tone := str "neutral", engagement_level := str "low",
           technical_confidence := str "unknown", key_indicators := none }, 0) :=
  ⟨Or.inr (by decide),
    c10_short_or_skipped_fixed_record (fun _ _ => none) (str "What is REST?")
      (str "hi") (Or.inr (by decide))⟩

/-! Dict lookup after update. -/

theorem find_map_update (d : StrDict) (k v : Str)
    (h : d.any (fun p => p.1 == k) = true) :
    List.find? (fun p => p.1 == k)
        (d.map (fun p => if p.1 = k then (k, v) else p)) = some (k, v) := by
  induction d with
  | nil => simp at h
  | cons p d' ih =>
    by_cases hp : p.1 = k
    · rw [List.map_cons, if_pos hp]
      exact List.find?_cons_of_pos _ (by simp)
    · have h' : d'.any (fun p => p.1 == k) = true := by
        simp only [List.any_cons, Bool.or_eq_true] at h
        rcases h with h | h
        · exact absurd (by simpa using h) hp
        · exact h
      rw [List.map_cons, if_neg hp,
        List.find?_cons_of_neg _ (by simpa using hp)]
      exact ih h'

theorem dictGet_dictSet_self (d : StrDict) (k v : Str) :
    dictGet (dictSet d k v) k = some v := by
  unfold dictGet dictSet
  by_cases h : d.any (fun p => p.1 == k) = true
  · rw [if_pos h, find_map_update d k v h]
    rfl
  · rw [if_neg h]
    have hall : List.find? (fun p => p.1 == k) d = none := by
      rw [List.find?_eq_none]
      intro p hp hpk
      exact h (List.any_eq_true.mpr ⟨p, hp, hpk⟩)
    rw [List.find?_append, hall, Option.none_or,
      List.find?_cons_of_pos _ (by simp)]
    rfl

theorem dictGet_dictSet_ne (d : StrDict) (k k' v : Str) (hne : k' ≠ k) :
    dictGet (dictSet d k v) k' = dictGet d k' := by
  unfold dictGet dictSet
  by_cases h : d.any (fun p => p.1 == k) = true
  · rw [if_pos h]
    congr 1
    clear h
    induction d with
    | nil => rfl
    | cons p d' ih =>
      by_cases hp : p.1 = k
      · rw [List.map_cons, if_pos hp,
          List.find?_cons_of_neg _ (by simpa using Ne.symm hne),
          List.find?_cons_of_neg _ (by rw [hp]; simpa using Ne.symm hne)]
        exact ih
      · rw [List.map_cons, if_neg hp]
        by_cases hpk : p.1 = k'
        · rw [List.find?_cons_of_pos _ (by simpa using hpk),
            List.find?_cons_of_pos _ (by simpa using hpk)]
        · rw [List.find?_cons_of_neg _ (by simpa using hpk),
            List.find?_cons_of_neg _ (by simpa using hpk)]
          exact ih
  · rw [if_neg h, List.find?_append]
    rw [List.find?_cons_of_neg _ (by simpa using Ne.symm hne)]
    simp

theorem getD_mem_or_default {α : Type} (l : List α) (n : Nat) (d : α) :
    l.getD n d ∈ l ∨ l.getD n d = d := by
  induction l generalizing n with
  | nil => right; rfl
  | cons x xs ih =>
    cases n with
    | zero => left; simp
    | succ m =>
      rcases ih m with h | h
      · left
        rw [List.getD_cons_succ]
        exact List.mem_cons_of_mem x h
      · right
        rw [List.getD_cons_succ]
        exact h

/-! Dialogue state machine claims. -/

/-- Claim C1, divergence evidence: running the specification's happy-path
inputs shows every stored value shifted one field early. After the six
inputs `Ana`, `ana@x.com`, `5551234567`, `3`, `Backend Engineer`, `Remote`,
the session has already left COLLECTING_INFO: the phone answer overwrote
`email`, the experience answer sits in `phone`, the position answer sits in
`experience_years`, the location answer sits in both `desired_positions`
and `tech_stack`, `location` was never populated, and the tech-stack prompt
was never issued. -/
theorem c1_happy_path_field_shift :
    (run_inputs sampleOracle initial_session happyPathInputs).current_state =
        BotState.technical_questions ∧
    dictGet (run_inputs sampleOracle initial_session happyPathInputs).candidate_info
        (str "full_name") = some (str "Ana") ∧
    dictGet (run_inputs sampleOracle initial_session happyPathInputs).candidate_info
        (str "email") = some (str "5551234567") ∧
    dictGet (run_inputs sampleOracle initial_session happyPathInputs).candidate_info
        (str "phone") = some (str "3") ∧
    dictGet (run_inputs sampleOracle initial_session happyPathInputs).candidate_info
        (str "experience_years") = some (str "Backend Engineer") ∧
    dictGet (run_inputs sampleOracle initial_session happyPathInputs).candidate_info
        (str "desired_positions") = some (str "Remote") ∧
    dictGet (run_inputs sampleOracle initial_session happyPathInputs).candidate_info
        (str "tech_stack") = some (str "Remote") ∧
    dictGet (run_inputs sampleOracle initial_session happyPathInputs).candidate_info
        (str "location") = none := by decide

/-- Claim C2, divergence evidence: an exit keyword produces the closing
message but performs no state change at all — the session, state included,
is returned untouched, so later inputs keep being processed by the normal
per-state logic instead of being refused. -/
theorem c2_exit_leaves_state_unchanged (o : TurnOracle) (s : Session)
    (input : Str) (h : (pyStrip input).map pyLower ∈ exit_keywords) :
    process_input o s input = (s, Reply.exitMsg) := by
  unfold process_input
  rw [if_pos h]

/-- Witness: `"quit"` during COLLECTING_INFO yields the closing message
with the session unchanged (still in COLLECTING_INFO). -/
theorem c2_witness :
    (pyStrip (str "quit")).map pyLower ∈ exit_keywords ∧
      process_input sampleOracle
          { initial_session with current_state := BotState.collecting_info }
          (str "quit") =
        ({ initial_session with current_state := BotState.collecting_info },
          Reply.exitMsg) :=
  ⟨by decide,
    c2_exit_leaves_state_unchanged sampleOracle
      { initial_session with current_state := BotState.collecting_info }
      (str "quit") (by decide)⟩

/-- Session sitting at the phone prompt of the happy path: name and email
already collected, `current_field_index = 1`. -/
def sessionAtPhone : Session :=
  { current_state := BotState.collecting_info,
    candidate_info := [(str "full_name", str "Ana"), (str "email", str "ana@x.com")],
    current_field_index := 1, tech_questions := [], current_question_index := 0,
    responses := [] }

/-- Claim C3, counterexample: the 9-digit phone `123456789` — invalid under
the claimed validator — is stored anyway (overwriting the `email` slot, due
to the index shift), the field index advances from 1 to 2, and the next
field's prompt is issued rather than the phone prompt re-issued (the phone
prompt text is `field_prompts["email"]`). -/
theorem c3_invalid_phone_accepted_cex :
    (process_input sampleOracle sessionAtPhone (str "123456789")).1.candidate_info ≠
        sessionAtPhone.candidate_info ∧
    (process_input sampleOracle sessionAtPhone
        (str "123456789")).1.current_field_index = 2 ∧
    dictGet (process_input sampleOracle sessionAtPhone
        (str "123456789")).1.candidate_info (str "email") =
      some (str "123456789") ∧
    (process_input sampleOracle sessionAtPhone (str "123456789")).2 =
      Reply.fieldPrompt (str "phone") ∧
    (process_input sampleOracle sessionAtPhone (str "123456789")).2 ≠
      Reply.fieldPrompt (str "email") := by decide

/-- Claim C3 (amended): no validator runs during the collection loop: every
turn stores the (pre-stripped) input verbatim under the slot selected by the
current index — the slot named after the previously prompted field, because
of the index shift — and the field cursor always advances by exactly one;
no input is ever rejected and the same prompt is never re-issued. -/
theorem c3_no_validation_always_advances (o : TurnOracle) (s : Session)
    (input : Str) :
    (handle_info_collection o s input).1.current_field_index =
        s.current_field_index + 1 ∧
    dictGet (handle_info_collection o s input).1.candidate_info
        (currentCollectionKey s.current_field_index) = some input := by
  have hne : currentCollectionKey s.current_field_index ≠ str "tech_stack" := by
    unfold currentCollectionKey
    split_ifs with h
    · rcases getD_mem_or_default field_prompt_keys (s.current_field_index - 1)
          (str "") with hm | hd
      · intro he
        rw [he] at hm
        exact absurd hm (by decide)
      · rw [hd]
        decide
    · decide
  unfold handle_info_collection start_technical_questions
  by_cases hlt : s.current_field_index + 1 < field_prompt_keys.length
  · rw [if_pos hlt]
    exact ⟨rfl, dictGet_dictSet_self _ _ _⟩
  · rw [if_neg hlt]
    refine ⟨rfl, ?_⟩
    rw [dictGet_dictSet_ne _ _ _ _ hne, dictGet_dictSet_self]

/-- Witness: at the phone turn, the invalid phone is stored under the
computed slot and the cursor moves from 1 to 2. -/
theorem c3_witness :
    (handle_info_collection sampleOracle sessionAtPhone
        (str "123456789")).1.current_field_index =
      sessionAtPhone.current_field_index + 1 ∧
    dictGet (handle_info_collection sampleOracle sessionAtPhone
        (str "123456789")).1.candidate_info
      (currentCollectionKey sessionAtPhone.current_field_index) =
        some (str "123456789") :=
  c3_no_validation_always_advances sampleOracle sessionAtPhone (str "123456789")

/-- Claim C4: every technical-questions turn appends exactly one response
entry; once the history holds at least 6 responses the turn completes the
interview with the final report regardless of the oracle's follow-up
recommendation; and from any reachable entry point (at most 6 stored
responses) the history never grows past 7. -/
theorem c4_session_cap (o : TurnOracle) (s : Session) (input : Str) :
    (handle_technical_questions o s input).1.responses.length =
        s.responses.length + 1 ∧
    (6 ≤ s.responses.length →
      (handle_technical_questions o s input).1.current_state =
          BotState.completed ∧
        (handle_technical_questions o s input).2 = Reply.finalReport) ∧
    (s.responses.length ≤ 6 →
      (handle_technical_questions o s input).1.responses.length ≤ 7) := by
  simp only [handle_technical_questions]
  generalize (if List.map pyLower input = str "skip" then str "Skipped" else input) = ans
  split_ifs with h1 h2
  · refine ⟨by simp, ?_, ?_⟩
    · intro h6
      exfalso
      have hlen := h1.2.1
      try simp only [List.length_append, List.length_cons, List.length_nil] at hlen
      omega
    · intro hle
      try simp only [List.length_append, List.length_cons, List.length_nil]
      omega
  · refine ⟨by simp, ?_, ?_⟩
    · intro h6
      exfalso
      have hlen := h2
      try simp only [List.length_append, List.length_cons, List.length_nil] at hlen
      omega
    · intro hle
      try simp only [List.length_append, List.length_cons, List.length_nil]
      omega
  · refine ⟨by simp, fun _ => ⟨rfl, rfl⟩, ?_⟩
    intro hle
    try simp only [List.length_append, List.length_cons, List.length_nil]
    omega

/-- An oracle that always recommends a non-empty follow-up, showing the cap
fires regardless of follow-up eligibility. -/
def eagerOracle : TurnOracle :=
  { first_question := str "First question",
    needs_followup := true,
    followup_question := str "Could you elaborate on that?",
    next_question := str "Next question" }

/-- Six already-stored responses. -/
def sixResponses : List ResponseEntry :=
  (List.range 6).map
    (fun i => { question := str "q", answer := str "a", question_number := i + 1 })

/-- Session whose history already holds 6 responses. -/
def sessionAtCap : Session :=
  { current_state := BotState.technical_questions, candidate_info := [],
    current_field_index := 5, tech_questions := [str "q"],
    current_question_index := 0, responses := sixResponses }

/-- Witness: with 6 stored responses and an oracle eager to follow up, the
next turn still completes the interview. -/
theorem c4_witness :
    6 ≤ sessionAtCap.responses.length ∧
      (handle_technical_questions eagerOracle sessionAtCap
          (str "A detailed answer")).1.current_state = BotState.completed ∧
      (handle_technical_questions eagerOracle sessionAtCap
          (str "A detailed answer")).2 = Reply.finalReport :=
  ⟨by decide,
    (c4_session_cap eagerOracle sessionAtCap (str "A detailed answer")).2.1
      (by decide)⟩
